import Mathlib

-- Verification of the R6 tracker bot core (index.js): aggregation, date
-- resolution, time windows, fetch fallback, rankings and cron scheduling.
--
-- Modelling conventions:
--   * JavaScript numbers are modelled by JsNum: NaN, signed infinity, or an
--     exact rational (double rounding is idealized away; no claim here
--     depends on rounding).
--   * Instants (luxon DateTime in the fixed zone TZ) are modelled as
--     rationals measured in days; the integer part is the civil day number
--     and startOf/endOf day/week act on it. Daylight-saving shifts are not
--     modelled: every modelled computation stays in the single configured
--     zone and compares at day granularity.
--   * Civil dates are triples (year, month, day); daysFromCivil and
--     civilFromDays convert between dates and day numbers.
--   * The network is an environment mapping each URL to either a navigation
--     error (page.goto rejecting) or a page whose content is a function of
--     the number of wait steps, since the code polls the page while waiting
--     for the bot challenge to clear.
--   * HTML documents are modelled post-DOM: the challenge-marker test and
--     the lists of day sections and match rows that the cheerio selectors
--     produce, with row texts already parsed to numbers.

namespace R6Bot

/-- Model of a JavaScript number: NaN, a signed infinity, or a finite value.
    Finite doubles are idealized as exact rationals; negative zero is not
    distinguished from zero (no modelled code path observes the sign of zero). -/
inductive JsNum where
  | nan : JsNum
  | inf (pos : Bool) : JsNum
  | fin (q : ℚ) : JsNum
deriving DecidableEq, Repr

namespace JsNum

/-- Number.isFinite -/
def isFinite : JsNum → Bool
  | fin _ => true
  | _ => false

/-- The rational carried by a finite JS number (0 for NaN and infinities). -/
def toQ : JsNum → ℚ
  | fin q => q
  | _ => 0

/-- JS unary minus. -/
def neg : JsNum → JsNum
  | nan => nan
  | inf p => inf (!p)
  | fin q => fin (-q)

/-- JS addition. -/
def add : JsNum → JsNum → JsNum
  | nan, _ => nan
  | _, nan => nan
  | inf p, inf q => if p = q then inf p else nan
  | inf p, fin _ => inf p
  | fin _, inf q => inf q
  | fin a, fin b => fin (a + b)

/-- JS subtraction. -/
def sub (a b : JsNum) : JsNum := add a (neg b)

/-- JS multiplication. -/
def mul : JsNum → JsNum → JsNum
  | nan, _ => nan
  | _, nan => nan
  | inf p, inf q => inf (p == q)
  | inf p, fin b => if b = 0 then nan else inf (p == decide (0 < b))
  | fin a, inf q => if a = 0 then nan else inf (q == decide (0 < a))
  | fin a, fin b => fin (a * b)

/-- JS division (division by zero follows the sign convention with +0). -/
def div : JsNum → JsNum → JsNum
  | nan, _ => nan
  | _, nan => nan
  | inf _, inf _ => nan
  | inf p, fin b => if b = 0 then inf p else inf (p == decide (0 < b))
  | fin _, inf _ => fin 0
  | fin a, fin b =>
      if b = 0 then (if a = 0 then nan else inf (decide (0 < a)))
      else fin (a / b)

/-- JS strict less-than (false whenever either side is NaN). -/
def lt : JsNum → JsNum → Bool
  | nan, _ => false
  | _, nan => false
  | inf p, inf q => !p && q
  | inf p, fin _ => !p
  | fin _, inf q => q
  | fin a, fin b => decide (a < b)

/-- JS strict greater-than. -/
def gt (a b : JsNum) : Bool := lt b a

end JsNum

/-- One per-day statistics block as produced by scrapeDailyBlocks: the resolved
    ISO date (as a civil day number; none when the header label did not parse)
    and the day totals. -/
structure Block where
  iso : Option ℤ
  wins : JsNum
  losses : JsNum
  k : JsNum
  d : JsNum
  hs_pct : JsNum
deriving DecidableEq, Repr

/-- The summary record returned by aggregate. -/
structure Agg where
  wins : JsNum
  losses : JsNum
  k : JsNum
  d : JsNum
  kd : JsNum
  hs_pct : JsNum
  days : ℕ
deriving DecidableEq, Repr

/-- The accumulator threaded through the loop of aggregate. -/
structure Totals where
  totalK : JsNum
  totalD : JsNum
  totalWins : JsNum
  totalLosses : JsNum
  hsShotsEst : JsNum
deriving DecidableEq, Repr

def initTotals : Totals := ⟨.fin 0, .fin 0, .fin 0, .fin 0, .fin 0⟩

/-- One iteration of the for-loop of aggregate (index.js lines 509-517):
    each field is added only when the corresponding block field is finite. -/
def aggStep (t : Totals) (b : Block) : Totals :=
  { totalK := if b.k.isFinite then t.totalK.add b.k else t.totalK
    totalD := if b.d.isFinite then t.totalD.add b.d else t.totalD
    totalWins := if b.wins.isFinite then t.totalWins.add b.wins else t.totalWins
    totalLosses := if b.losses.isFinite then t.totalLosses.add b.losses else t.totalLosses
    hsShotsEst :=
      if b.hs_pct.isFinite && b.k.isFinite then
        t.hsShotsEst.add ((b.hs_pct.div (.fin 100)).mul b.k)
      else t.hsShotsEst }

/-- aggregate (index.js lines 505-524). Note line 520: a non-finite kdRaw
    (the Infinity sentinel) is coerced to 0. -/
def aggregate (blocks : List Block) : Agg :=
  let t := blocks.foldl aggStep initTotals
  let kdRaw :=
    if t.totalD.gt (.fin 0) then t.totalK.div t.totalD
    else if t.totalK.gt (.fin 0) then JsNum.inf true else JsNum.fin 0
  let kd := if kdRaw.isFinite then kdRaw else JsNum.fin 0
  let hsPct :=
    if t.totalK.gt (.fin 0) then (t.hsShotsEst.div t.totalK).mul (.fin 100)
    else JsNum.fin 0
  { wins := t.totalWins, losses := t.totalLosses, k := t.totalK, d := t.totalD,
    kd := kd, hs_pct := hsPct, days := blocks.length }

/-- A block whose statistical fields are all finite. -/
def wfBlock (b : Block) : Bool :=
  b.k.isFinite && b.d.isFinite && b.wins.isFinite && b.losses.isFinite && b.hs_pct.isFinite

/-- Summed kills over a block list (spec side). -/
def sumK (blocks : List Block) : ℚ := (blocks.map (fun b => b.k.toQ)).sum

/-- Summed deaths over a block list (spec side). -/
def sumD (blocks : List Block) : ℚ := (blocks.map (fun b => b.d.toQ)).sum

/-- Summed estimated headshot count over a block list (spec side). -/
def hsSum (blocks : List Block) : ℚ :=
  (blocks.map (fun b => b.hs_pct.toQ / 100 * b.k.toQ)).sum

/-- All five accumulator fields are finite. -/
def finTotals (t : Totals) : Prop :=
  t.totalK.isFinite = true ∧ t.totalD.isFinite = true ∧ t.totalWins.isFinite = true ∧
  t.totalLosses.isFinite = true ∧ t.hsShotsEst.isFinite = true

-- ------------------------------------------------------------------
-- Date resolution (MONTHS_EN and toISOFromLabel, index.js lines 335-346)
-- ------------------------------------------------------------------

/-- A civil calendar date. -/
structure Date where
  year : ℤ
  month : ℕ
  day : ℕ
deriving DecidableEq, Repr

def MONTHS_EN : List (String × ℕ) :=
  [("Jan", 1), ("Feb", 2), ("Mar", 3), ("Apr", 4), ("May", 5), ("Jun", 6),
   ("Jul", 7), ("Aug", 8), ("Sep", 9), ("Oct", 10), ("Nov", 11), ("Dec", 12)]

/-- Whitespace as matched by the regex class (ASCII part). -/
def jsIsSpace (c : Char) : Bool :=
  c == ' ' || c == '\t' || c == '\n' || c == '\r' || c == '\x0b' || c == '\x0c'

def digitsToNat (ds : List Char) : ℕ :=
  ds.foldl (fun n c => 10 * n + (c.toNat - 48)) 0

/-- The regex of toISOFromLabel: optional whitespace, a three-letter month
    abbreviation, whitespace, one or two digits, optional whitespace. -/
def parseLabel (label : String) : Option (ℕ × ℕ) :=
  match label.toList.dropWhile jsIsSpace with
  | c1 :: c2 :: c3 :: rest =>
    match MONTHS_EN.find? (fun p => p.1 == String.mk [c1, c2, c3]) with
    | none => none
    | some (_, mon) =>
      let rest1 := rest.dropWhile jsIsSpace
      if rest1.length = rest.length then none
      else
        let digits := rest1.takeWhile Char.isDigit
        let rest2 := rest1.drop digits.length
        if digits.length = 0 || 2 < digits.length then none
        else if rest2.all jsIsSpace then some (mon, digitsToNat digits)
        else none
  | _ => none

def isLeap (y : ℤ) : Bool := (y % 4 == 0 && y % 100 != 0) || y % 400 == 0

def daysInMonth (y : ℤ) (m : ℕ) : ℕ :=
  if m = 2 then (if isLeap y then 29 else 28)
  else if m = 4 ∨ m = 6 ∨ m = 9 ∨ m = 11 then 30
  else 31

/-- DateTime.fromObject: an out-of-range month or day yields an invalid
    DateTime, whose toISODate is null. -/
def fromObjectValid (y : ℤ) (m d : ℕ) : Option Date :=
  if 1 ≤ m ∧ m ≤ 12 ∧ 1 ≤ d ∧ d ≤ daysInMonth y m then some ⟨y, m, d⟩ else none

/-- luxon minus one year, clamping the day to the target month length. -/
def minusYears1 (dt : Date) : Date :=
  { year := dt.year - 1, month := dt.month, day := min dt.day (daysInMonth (dt.year - 1) dt.month) }

/-- toISOFromLabel (index.js lines 337-346): parse the label, take the year of
    the reference date, and subtract a year exactly when the reference month is
    January and the label month is December. -/
def toISOFromLabel (label : String) (now : Date) : Option Date :=
  match parseLabel label with
  | none => none
  | some (month, day) =>
    match fromObjectValid now.year month day with
    | none => none
    | some dt => some (if now.month = 1 ∧ month = 12 then minusYears1 dt else dt)

/-- Civil day number of a date (days since 1970-01-01, Hinnant algorithm). -/
def daysFromCivil (dt : Date) : ℤ :=
  let y : ℤ := if dt.month ≤ 2 then dt.year - 1 else dt.year
  let m : ℤ := (dt.month : ℤ)
  let d : ℤ := (dt.day : ℤ)
  let era : ℤ := y.fdiv 400
  let yoe : ℤ := y - era * 400
  let mp : ℤ := (m + 9) % 12
  let doy : ℤ := (153 * mp + 2).fdiv 5 + d - 1
  let doe : ℤ := yoe * 365 + yoe.fdiv 4 - yoe.fdiv 100 + doy
  era * 146097 + doe - 719468

/-- Inverse of daysFromCivil. -/
def civilFromDays (z0 : ℤ) : Date :=
  let z := z0 + 719468
  let era := z.fdiv 146097
  let doe := z - era * 146097
  let yoe := (doe - doe.fdiv 1460 + doe.fdiv 36524 - doe.fdiv 146096).fdiv 365
  let y := yoe + era * 400
  let doy := doe - (365 * yoe + yoe.fdiv 4 - yoe.fdiv 100)
  let mp := (5 * doy + 2).fdiv 153
  let d := doy - (153 * mp + 2).fdiv 5 + 1
  let m := if mp < 10 then mp + 3 else mp - 9
  { year := if m ≤ 2 then y + 1 else y, month := m.toNat, day := d.toNat }

-- ------------------------------------------------------------------
-- Time windows (index.js lines 458-502); instants are rational day counts
-- ------------------------------------------------------------------

/-- endOf day lands on 23:59:59.999 of the same day. -/
def eodFrac : ℚ := 86399999 / 86400000

def startOfDay (t : ℚ) : ℚ := (⌊t⌋ : ℚ)

def endOfDay (t : ℚ) : ℚ := (⌊t⌋ : ℚ) + eodFrac

/-- ISO weekday of a civil day number, Monday = 1 .. Sunday = 7
    (day 0 = 1970-01-01 was a Thursday). -/
def weekdayISO (n : ℤ) : ℤ := (n + 3) % 7 + 1

/-- luxon startOf week: the Monday of the ISO week containing the instant. -/
def startOfWeek (t : ℚ) : ℚ := ((⌊t⌋ - (weekdayISO ⌊t⌋ - 1) : ℤ) : ℚ)

/-- luxon endOf week: end of the Sunday of the same ISO week. -/
def endOfWeek (t : ℚ) : ℚ := startOfWeek t + 6 + eodFrac

def startOfMonth (t : ℚ) : ℚ :=
  let c := civilFromDays ⌊t⌋
  ((daysFromCivil ⟨c.year, c.month, 1⟩ : ℤ) : ℚ)

def endOfMonth (t : ℚ) : ℚ :=
  let c := civilFromDays ⌊t⌋
  ((daysFromCivil ⟨c.year, c.month, daysInMonth c.year c.month⟩ : ℤ) : ℚ) + eodFrac

/-- luxon minus one month, clamping the day to the target month length. -/
def minusMonths1 (t : ℚ) : ℚ :=
  let c := civilFromDays ⌊t⌋
  let frac := t - (⌊t⌋ : ℚ)
  let y : ℤ := if c.month = 1 then c.year - 1 else c.year
  let m : ℕ := if c.month = 1 then 12 else c.month - 1
  ((daysFromCivil ⟨y, m, min c.day (daysInMonth y m)⟩ : ℤ) : ℚ) + frac

/-- A resolved window. The field stop models the end of the window
    (end is a reserved word). -/
structure Window where
  start : ℚ
  stop : ℚ
deriving DecidableEq, Repr

/-- filterBlocksByWindow (index.js lines 458-465): keep blocks with a resolved
    date whose end-of-day instant lies between startOfDay start and
    endOfDay stop. -/
def filterBlocksByWindow (blocks : List Block) (start stop : ℚ) : List Block :=
  (blocks.filter (fun b => b.iso.isSome)).filter (fun b =>
    match b.iso with
    | some dnum =>
        decide (startOfDay start ≤ endOfDay (dnum : ℚ)) &&
        decide (endOfDay (dnum : ℚ) ≤ endOfDay stop)
    | none => false)

/-- filterBlocksByRange (index.js lines 467-476). -/
def filterBlocksByRange (blocks : List Block) (range : String) (now : ℚ) : List Block :=
  let today := startOfDay now
  let start :=
    if range = "day" then today
    else if range = "week" then today - 6
    else if range = "month" then today - 29
    else today
  filterBlocksByWindow blocks start (endOfDay today)

/-- getCanonicalWindow (index.js lines 478-497). -/
def getCanonicalWindow (kind : String) (now : ℚ) : Window :=
  if kind = "day" then
    let s := startOfDay now
    ⟨s, endOfDay s⟩
  else if kind = "week" then
    let prev := now - 7
    ⟨startOfWeek prev, endOfWeek prev⟩
  else if kind = "month" then
    let prev := minusMonths1 now
    ⟨startOfMonth prev, endOfMonth prev⟩
  else
    let s := startOfDay now
    ⟨s, endOfDay s⟩

/-- The Monday starting the ISO week that contains civil day n (spec side). -/
def mondayOf (n : ℤ) : ℤ := n - (weekdayISO n - 1)

-- ------------------------------------------------------------------
-- Fetching (index.js lines 238-330) and scraping (lines 348-404)
-- ------------------------------------------------------------------

/-- One .v3-match-row, with the win class and the numbers the row texts
    parse to (text-to-number parsing is abstracted into the fields: k and d
    from the kill/death values, hs the HS% value when it parses). -/
structure MatchRow where
  win : Bool
  k : ℤ
  d : ℤ
  hs : Option ℚ
deriving DecidableEq, Repr

/-- One day section matched by the section selector. -/
structure DaySection where
  header : String
  rows : List MatchRow
deriving DecidableEq, Repr

/-- A loaded page: whether its body matches the Cloudflare challenge markers,
    and the day sections present in its DOM. -/
structure Doc where
  challenge : Bool
  sections : List DaySection
deriving DecidableEq, Repr

/-- What the network does for one URL: page.goto rejects, or the page loads
    and its content after i wait steps is content i. -/
inductive FetchOutcome where
  | navError (msg : String)
  | page (content : ℕ → Doc)

def Env := String → FetchOutcome

/-- Configuration: TRN_BASE and the resolved platform. -/
structure Config where
  base : String
  platform : String
deriving DecidableEq, Repr

def hexDigit (n : ℕ) : Char := if n < 10 then Char.ofNat (48 + n) else Char.ofNat (55 + n)

def isUnreservedByte (b : ℕ) : Bool :=
  (decide (65 ≤ b) && decide (b ≤ 90)) ||
  (decide (97 ≤ b) && decide (b ≤ 122)) ||
  (decide (48 ≤ b) && decide (b ≤ 57)) ||
  [45, 95, 46, 33, 126, 42, 39, 40, 41].contains b

/-- The UTF-8 bytes of one code point. -/
def utf8Bytes (c : Char) : List ℕ :=
  let n := c.toNat
  if n < 128 then [n]
  else if n < 2048 then [192 + n / 64, 128 + n % 64]
  else if n < 65536 then [224 + n / 4096, 128 + (n / 64) % 64, 128 + n % 64]
  else [240 + n / 262144, 128 + (n / 4096) % 64, 128 + (n / 64) % 64, 128 + n % 64]

def encodeByte (b : ℕ) : List Char :=
  if isUnreservedByte b then [Char.ofNat b]
  else ['%', hexDigit (b / 16), hexDigit (b % 16)]

/-- encodeURIComponent: percent-encode every UTF-8 byte outside the
    unreserved set. -/
def encodeURIComponent (s : String) : String :=
  String.mk (((s.toList.map utf8Bytes).flatten.map encodeByte).flatten)

/-- ASCII lowering, as toLowerCase acts on the configuration strings in play. -/
def toLowerStr (s : String) : String :=
  String.mk (s.toList.map (fun c =>
    if 65 ≤ c.toNat ∧ c.toNat ≤ 90 then Char.ofNat (c.toNat + 32) else c))

/-- Deduplication by new Set keeps the first occurrence of each element. -/
def dedupKeepFirst : List String → List String
  | [] => []
  | x :: xs => x :: (dedupKeepFirst xs).filter (fun y => y != x)

/-- buildCandidates (index.js lines 238-256). -/
def buildCandidates (cfg : Config) (username : String) : List String :=
  let nameEnc := encodeURIComponent username
  let uTrkUbiOverview := "https://tracker.gg/r6siege/profile/ubi/" ++ nameEnc ++ "/matches"
  let uTrkPlatOverview :=
    "https://tracker.gg/r6siege/profile/" ++ cfg.platform ++ "/" ++ nameEnc ++ "/overview"
  let uR6UbiMatches := "https://tracker.gg/r6siege/profile/ubi/" ++ nameEnc ++ "/overview"
  let uR6PlatProfile := "https://r6.tracker.network/profile/" ++ cfg.platform ++ "/" ++ nameEnc
  let basePref := toLowerStr cfg.base
  let candidates :=
    if basePref = "tracker" then [uTrkUbiOverview, uTrkPlatOverview, uR6UbiMatches, uR6PlatProfile]
    else if basePref = "r6" then [uR6PlatProfile, uR6UbiMatches, uTrkPlatOverview, uTrkUbiOverview]
    else [uTrkUbiOverview, uTrkPlatOverview, uR6UbiMatches, uR6PlatProfile]
  dedupKeepFirst candidates

/-- The Cloudflare wait loop of fetchWithPlaywright (index.js lines 275-282):
    number of waits until the challenge marker clears, capped at 10. -/
def cfAttempts (content : ℕ → Doc) : ℕ :=
  ((List.range 10).find? (fun i => !(content i).challenge)).getD 10

/-- fetchWithPlaywright (index.js lines 259-311): a navigation error rejects;
    otherwise the content observed after the waits is returned as-is --
    whatever its status was, and even when the challenge never cleared.
    Cookie persistence is a side effect with no bearing on the returned
    document and is not modelled. -/
def fetchWithPlaywright (env : Env) (url : String) : Except String Doc :=
  match env url with
  | .navError msg => .error msg
  | .page content => .ok (content (cfAttempts content + 1))

/-- The candidate loop of fetchProfileHtml (index.js lines 314-330). -/
def fetchTryCandidates (env : Env) (username : String) :
    List String → Option String → Except String (String × Doc)
  | [], lastErr => .error ("Falha ao carregar perfil " ++ username ++ ": " ++ lastErr.getD "bloqueado")
  | url :: rest, _ =>
    match fetchWithPlaywright env url with
    | .ok doc => .ok (url, doc)
    | .error e => fetchTryCandidates env username rest (some e)

def fetchProfileHtml (env : Env) (cfg : Config) (username : String) :
    Except String (String × Doc) :=
  fetchTryCandidates env username (buildCandidates cfg username) none

/-- Per-section extraction of scrapeDailyBlocks (index.js lines 355-400):
    skip the section when the header label does not resolve; otherwise count
    wins and losses, sum kills and deaths, and average the HS% values that
    parsed. -/
def extractSection (nowDate : Date) (s : DaySection) : Option Block :=
  match toISOFromLabel s.header nowDate with
  | none => none
  | some dt =>
    let wins := (s.rows.filter (fun r => r.win)).length
    let losses := (s.rows.filter (fun r => !r.win)).length
    let kSum := (s.rows.map (fun r => r.k)).sum
    let dSum := (s.rows.map (fun r => r.d)).sum
    let hsVals := s.rows.filterMap (fun r => r.hs)
    let hs_pct : ℚ := if 0 < hsVals.length then hsVals.sum / (hsVals.length : ℚ) else 0
    some { iso := some (daysFromCivil dt), wins := .fin (wins : ℚ), losses := .fin (losses : ℚ),
           k := .fin (kSum : ℚ), d := .fin (dSum : ℚ), hs_pct := .fin hs_pct }

def scrapeDailyBlocks (env : Env) (cfg : Config) (username : String) (nowDate : Date) :
    Except String (String × List Block) :=
  match fetchProfileHtml env cfg username with
  | .error e => .error e
  | .ok (url, doc) => .ok (url, doc.sections.filterMap (extractSection nowDate))

structure UserResult where
  username : String
  url : String
  agg : Agg
  count : ℕ
deriving DecidableEq, Repr

/-- collectForUser (index.js lines 567-572). -/
def collectForUser (env : Env) (cfg : Config) (username range : String) (now : ℚ)
    (nowDate : Date) : Except String UserResult :=
  match scrapeDailyBlocks env cfg username nowDate with
  | .error e => .error e
  | .ok (url, blocks) =>
    let filtered := filterBlocksByRange blocks range now
    .ok { username := username, url := url, agg := aggregate filtered, count := filtered.length }

/-- One entry of a collectForGuild result list: a success record or a
    per-player error record. -/
inductive GEntry where
  | ok (r : UserResult)
  | err (username : String) (msg : String)
deriving DecidableEq, Repr

/-- collectForGuild (index.js lines 574-587): sequential per-player loop, each
    player under its own try/catch, errors pushed as per-player entries.
    The registered-player rows are the players argument; the inter-player
    delay has no effect on the result value. -/
def collectForGuild (env : Env) (cfg : Config) (players : List String) (range : String)
    (now : ℚ) (nowDate : Date) : List GEntry :=
  match players with
  | [] => []
  | u :: rest =>
    (match collectForUser env cfg u range now nowDate with
     | .ok r => GEntry.ok r
     | .error e => GEntry.err u e) :: collectForGuild env cfg rest range now nowDate

-- ------------------------------------------------------------------
-- Rankings (buildRankings, index.js lines 638-652)
-- ------------------------------------------------------------------

/-- A ranking input row: the username spread together with the aggregate. -/
structure FlatEntry where
  username : String
  wins : JsNum
  losses : JsNum
  k : JsNum
  d : JsNum
  kd : JsNum
  hs_pct : JsNum
  days : ℕ
deriving DecidableEq, Repr

def flatten : GEntry → Option FlatEntry
  | .ok r => some ⟨r.username, r.agg.wins, r.agg.losses, r.agg.k, r.agg.d,
                   r.agg.kd, r.agg.hs_pct, r.agg.days⟩
  | .err _ _ => none

/-- Array.prototype.sort with comparator (a, b) => b[metric] - a[metric]:
    a may stay before b exactly when the comparator does not return a
    positive number. -/
def sortKeep (v : FlatEntry → JsNum) (a b : FlatEntry) : Bool :=
  !(JsNum.lt (JsNum.fin 0) (JsNum.sub (v b) (v a)))

/-- Stable insertion used to model the (stable, per ES2019) Array sort. -/
def orderedInsertJS {α : Type} (r : α → α → Bool) (a : α) : List α → List α
  | [] => [a]
  | b :: l => if r a b then a :: b :: l else b :: orderedInsertJS r a l

def insertionSortJS {α : Type} (r : α → α → Bool) : List α → List α
  | [] => []
  | a :: l => orderedInsertJS r a (insertionSortJS r l)

/-- Sort descending by the metric and slice the top 5. -/
def rankBy (v : FlatEntry → JsNum) (flat : List FlatEntry) : List FlatEntry :=
  (insertionSortJS (sortKeep v) flat).take 5

structure Rankings where
  mostKills : List FlatEntry
  mostDeaths : List FlatEntry
  bestKD : List FlatEntry
  bestHS : List FlatEntry
  mostWins : List FlatEntry
deriving DecidableEq, Repr

/-- buildRankings (index.js lines 638-652): drop errored entries, then sort
    each metric descending and keep the top five. No finiteness filtering
    happens anywhere. -/
def buildRankings (collected : List GEntry) : Rankings :=
  let flat := collected.filterMap flatten
  { mostKills := rankBy (fun e => e.k) flat
    mostDeaths := rankBy (fun e => e.d) flat
    bestKD := rankBy (fun e => e.kd) flat
    bestHS := rankBy (fun e => e.hs_pct) flat
    mostWins := rankBy (fun e => e.wins) flat }

-- ------------------------------------------------------------------
-- Cron scheduling (index.js lines 655-745)
-- ------------------------------------------------------------------

/-- parseHHmm (index.js lines 657-661): the regex ([01]\d|2[0-3]):([0-5]\d)
    on the trimmed string. -/
def charBetween (c : Char) (lo hi : ℕ) : Bool :=
  decide (lo ≤ c.toNat) && decide (c.toNat ≤ hi)

/-- String.prototype.trim: strip whitespace from both ends. -/
def jsTrim (cs : List Char) : List Char :=
  ((cs.dropWhile jsIsSpace).reverse.dropWhile jsIsSpace).reverse

def parseHHmm (s : String) : Option (ℕ × ℕ) :=
  match jsTrim s.toList with
  | [h1, h2, c, m1, m2] =>
    if c == ':' &&
       ((h1 == '0' || h1 == '1') && h2.isDigit || h1 == '2' && charBetween h2 48 51) &&
       charBetween m1 48 53 && m2.isDigit
    then some ((h1.toNat - 48) * 10 + (h2.toNat - 48), (m1.toNat - 48) * 10 + (m2.toNat - 48))
    else none
  | _ => none

/-- A node-cron ScheduledTask: the guild that installed it, its cron
    expression, and whether it has been stopped. -/
structure CronJob where
  guild : String
  expr : String
  active : Bool
deriving DecidableEq, Repr

/-- The scheduling state: the schedules table (guild, channel, time), the
    guildCrons map holding the indices of each guild's three tasks, and the
    heap of every ScheduledTask ever created (indexed by position). -/
structure CronState where
  schedules : List (String × String × String)
  cronMap : List (String × ℕ × ℕ × ℕ)
  jobs : List CronJob
deriving DecidableEq, Repr

def lookupSched (l : List (String × String × String)) (g : String) : Option (String × String) :=
  (l.find? (fun e => e.1 == g)).map (fun e => e.2)

/-- qUpsertSchedule: INSERT with ON CONFLICT DO UPDATE on the guild key. -/
def upsertSched (l : List (String × String × String)) (g ch t : String) :
    List (String × String × String) :=
  if l.any (fun e => e.1 == g) then l.map (fun e => if e.1 == g then (g, ch, t) else e)
  else l ++ [(g, ch, t)]

def lookupCron (l : List (String × ℕ × ℕ × ℕ)) (g : String) : Option (ℕ × ℕ × ℕ) :=
  (l.find? (fun e => e.1 == g)).map (fun e => e.2)

/-- guildCrons.set -/
def setCron (l : List (String × ℕ × ℕ × ℕ)) (g : String) (ids : ℕ × ℕ × ℕ) :
    List (String × ℕ × ℕ × ℕ) :=
  (g, ids) :: l.filter (fun e => e.1 != g)

/-- guildCrons.delete -/
def delCron (l : List (String × ℕ × ℕ × ℕ)) (g : String) : List (String × ℕ × ℕ × ℕ) :=
  l.filter (fun e => e.1 != g)

/-- task.stop on the job at one heap index. -/
def stopJob : ℕ → List CronJob → List CronJob
  | _, [] => []
  | 0, j :: rest => { j with active := false } :: rest
  | n + 1, j :: rest => j :: stopJob n rest

/-- stopCronsForGuild (index.js lines 663-670): stop the three mapped tasks
    and delete the map entry; a no-op when the guild has no entry. -/
def stopCronsForGuild (g : String) (st : CronState) : CronState :=
  match lookupCron st.cronMap g with
  | none => st
  | some (d, w, m) =>
    { st with jobs := stopJob m (stopJob w (stopJob d st.jobs)), cronMap := delCron st.cronMap g }

def dailyExpr (hh mm : ℕ) : String := s!"{mm} {hh} * * *"
def weeklyExpr (hh mm : ℕ) : String := s!"{mm} {hh} * * 1"
def monthlyExpr (hh mm : ℕ) : String := s!"{mm} {hh} 1 * *"

/-- installCronsForGuild (index.js lines 672-745): read the persisted
    schedule, parse the time, stop any previous tasks for the guild first,
    then create the daily, weekly and monthly tasks and record them in the
    map. -/
def installCronsForGuild (g : String) (st : CronState) : CronState :=
  match lookupSched st.schedules g with
  | none => st
  | some (_, timeStr) =>
    match parseHHmm timeStr with
    | none => st
    | some (hh, mm) =>
      let st1 := stopCronsForGuild g st
      let n := st1.jobs.length
      { st1 with
        jobs := st1.jobs ++
          [⟨g, dailyExpr hh mm, true⟩, ⟨g, weeklyExpr hh mm, true⟩, ⟨g, monthlyExpr hh mm, true⟩],
        cronMap := setCron st1.cronMap g (n, n + 1, n + 2) }

/-- The program command handler: upsert the schedule row, then
    installCronsForGuild (index.js lines 869-886). -/
def program (g ch t : String) (st : CronState) : CronState :=
  installCronsForGuild g { st with schedules := upsertSched st.schedules g ch t }

/-- The cron expressions of the still-active tasks installed for a guild. -/
def activeExprsFor (st : CronState) (g : String) : List String :=
  (st.jobs.filter (fun j => j.guild == g && j.active)).map (fun j => j.expr)

/-- Is index i one of the mapped triple (false when the guild is unmapped)? -/
def inTripleB (o : Option (ℕ × ℕ × ℕ)) (i : ℕ) : Bool :=
  match o with
  | some (d, w, m) => i == d || i == w || i == m
  | none => false

/-- Bookkeeping invariant the program maintains: every active task of a guild
    is one of the three recorded in the guildCrons map. -/
def WfGuild (st : CronState) (g : String) : Prop :=
  ∀ i, (h : i < st.jobs.length) →
    (st.jobs[i].guild = g ∧ st.jobs[i].active = true) →
    inTripleB (lookupCron st.cronMap g) i = true

instance (st : CronState) (g : String) : Decidable (WfGuild st g) :=
  Nat.decidableBallLT _ _

-- ------------------------------------------------------------------
-- Concrete inputs used by witnesses and counterexamples
-- ------------------------------------------------------------------

/-- The day block of the C1 example: kills 5, deaths 0. -/
def blkC1 : Block := ⟨none, .fin 1, .fin 0, .fin 5, .fin 0, .fin 0⟩

/-- First block of the C7 example: kills 10, hs 50. -/
def blk7a : Block := ⟨none, .fin 0, .fin 0, .fin 10, .fin 0, .fin 50⟩

/-- Second block of the C7 example: kills 4, hs 25. -/
def blk7b : Block := ⟨none, .fin 0, .fin 0, .fin 4, .fin 0, .fin 25⟩

/-- A page that never clears the bot challenge and shows no day sections. -/
def challengeDoc : Doc := ⟨true, []⟩

/-- A network where every URL serves the unresolved challenge page. -/
def envBlocked : Env := fun _ => FetchOutcome.page (fun _ => challengeDoc)

/-- A network where every navigation fails. -/
def envDown : Env := fun _ => FetchOutcome.navError "net error"

/-- The all-zero summary. -/
def zeroAgg : Agg := ⟨.fin 0, .fin 0, .fin 0, .fin 0, .fin 0, .fin 0, 0⟩

/-- A summary carrying the +infinity kd sentinel. -/
def aggInf : Agg := ⟨.fin 0, .fin 0, .fin 0, .fin 0, .inf true, .fin 0, 1⟩

/-- A summary with kd 1. -/
def aggOne : Agg := ⟨.fin 0, .fin 0, .fin 0, .fin 0, .fin 1, .fin 0, 1⟩

/-- What holds of one metric's ranking list (spec side): at most five entries;
    every entry stems from a non-errored collected entry (errored entries are
    excluded, never zeroed); and when every ranked value of the metric is
    finite, consecutive entries are in descending order of the metric. -/
def rankingOK (v : FlatEntry → JsNum) (collected : List GEntry)
    (ranking : List FlatEntry) : Prop :=
  ranking.length ≤ 5 ∧
  (∀ e ∈ ranking, ∃ g ∈ collected, flatten g = some e) ∧
  ((∀ e ∈ collected.filterMap flatten, (v e).isFinite = true) →
    List.Chain' (fun x y => (v y).toQ ≤ (v x).toQ) ranking)

-- ==================================================================
-- Theorems
-- ==================================================================

namespace JsNum

theorem add_isFinite {a b : JsNum} (ha : a.isFinite = true) (hb : b.isFinite = true) :
    (a.add b).isFinite = true := by
  cases a <;> cases b <;> simp_all [isFinite, add]

theorem isFinite_eq_fin {a : JsNum} (ha : a.isFinite = true) : a = fin a.toQ := by
  cases a <;> simp_all [isFinite, toQ]

theorem add_fin (x y : ℚ) : (fin x).add (fin y) = fin (x + y) := rfl

theorem gt_fin_zero (x : ℚ) : (fin x).gt (fin 0) = decide (0 < x) := rfl

theorem mul_fin (x y : ℚ) : (fin x).mul (fin y) = fin (x * y) := rfl

theorem div_fin_of_ne (x y : ℚ) (hy : y ≠ 0) : (fin x).div (fin y) = fin (x / y) := by
  simp [div, hy]

end JsNum

theorem aggStep_finite (t : Totals) (b : Block) (ht : finTotals t) :
    finTotals (aggStep t b) := by
  obtain ⟨h1, h2, h3, h4, h5⟩ := ht
  refine ⟨?_, ?_, ?_, ?_, ?_⟩ <;> simp only [aggStep]
  · split
    · next hb => exact JsNum.add_isFinite h1 hb
    · exact h1
  · split
    · next hb => exact JsNum.add_isFinite h2 hb
    · exact h2
  · split
    · next hb => exact JsNum.add_isFinite h3 hb
    · exact h3
  · split
    · next hb => exact JsNum.add_isFinite h4 hb
    · exact h4
  · split
    · next hb =>
      obtain ⟨hhs, hk⟩ := Bool.and_eq_true_iff.mp hb
      rw [JsNum.isFinite_eq_fin hhs, JsNum.isFinite_eq_fin hk,
        JsNum.div_fin_of_ne _ _ (by norm_num), JsNum.mul_fin]
      exact JsNum.add_isFinite h5 rfl
    · exact h5

theorem foldl_aggStep_finite (blocks : List Block) (t : Totals) (ht : finTotals t) :
    finTotals (blocks.foldl aggStep t) := by
  induction blocks generalizing t with
  | nil => exact ht
  | cons b rest ih => exact ih _ (aggStep_finite t b ht)

/-- Characterization of the accumulator on well-formed input: every total is
    the finite rational sum of the corresponding block fields. -/
theorem foldl_aggStep_totals (blocks : List Block) (hwf : blocks.all wfBlock = true)
    (qK qD qW qL qH : ℚ) :
    blocks.foldl aggStep ⟨.fin qK, .fin qD, .fin qW, .fin qL, .fin qH⟩ =
      ⟨.fin (qK + sumK blocks), .fin (qD + sumD blocks),
       .fin (qW + (blocks.map (fun b => b.wins.toQ)).sum),
       .fin (qL + (blocks.map (fun b => b.losses.toQ)).sum),
       .fin (qH + hsSum blocks)⟩ := by
  induction blocks generalizing qK qD qW qL qH with
  | nil => simp [sumK, sumD, hsSum]
  | cons b rest ih =>
    simp only [List.all_cons, Bool.and_eq_true_iff] at hwf
    obtain ⟨hb, hrest⟩ := hwf
    simp only [wfBlock, Bool.and_eq_true_iff] at hb
    obtain ⟨⟨⟨⟨hk, hd⟩, hw⟩, hl⟩, hh⟩ := hb
    have ek := JsNum.isFinite_eq_fin hk
    have ed := JsNum.isFinite_eq_fin hd
    have ew := JsNum.isFinite_eq_fin hw
    have el := JsNum.isFinite_eq_fin hl
    have eh := JsNum.isFinite_eq_fin hh
    have step : aggStep ⟨.fin qK, .fin qD, .fin qW, .fin qL, .fin qH⟩ b =
        ⟨.fin (qK + b.k.toQ), .fin (qD + b.d.toQ), .fin (qW + b.wins.toQ),
         .fin (qL + b.losses.toQ), .fin (qH + b.hs_pct.toQ / 100 * b.k.toQ)⟩ := by
      simp only [aggStep, hk, hd, hw, hl, hh, Bool.and_self, if_pos]
      rw [ek, ed, ew, el, eh]
      rw [JsNum.div_fin_of_ne _ _ (by norm_num), JsNum.mul_fin]
      simp only [JsNum.add_fin, JsNum.toQ]
    rw [List.foldl_cons, step, ih hrest]
    simp only [sumK, sumD, hsSum, List.map_cons, List.sum_cons, add_assoc]

/-- The totals reached from the initial accumulator, on well-formed input. -/
theorem aggregate_totals (blocks : List Block) (hwf : blocks.all wfBlock = true) :
    blocks.foldl aggStep initTotals =
      ⟨.fin (sumK blocks), .fin (sumD blocks),
       .fin ((blocks.map (fun b => b.wins.toQ)).sum),
       .fin ((blocks.map (fun b => b.losses.toQ)).sum),
       .fin (hsSum blocks)⟩ := by
  have h := foldl_aggStep_totals blocks hwf 0 0 0 0 0
  simpa [initTotals] using h

/-- A non-finite value guarded by the isFinite coercion becomes finite. -/
theorem coerce_finite (x : JsNum) :
    (if x.isFinite then x else JsNum.fin 0).isFinite = true := by
  by_cases h : x.isFinite = true
  · rwa [if_pos h]
  · rw [if_neg h]; rfl

theorem hs_branch_finite (a b : JsNum) (ha : a.isFinite = true) (hb : b.isFinite = true)
    (hgt : b.gt (JsNum.fin 0) = true) :
    ((a.div b).mul (JsNum.fin 100)).isFinite = true := by
  rw [JsNum.isFinite_eq_fin hb, JsNum.gt_fin_zero] at hgt
  have hne : b.toQ ≠ 0 := ne_of_gt (of_decide_eq_true hgt)
  rw [JsNum.isFinite_eq_fin ha, JsNum.isFinite_eq_fin hb,
    JsNum.div_fin_of_ne _ _ hne, JsNum.mul_fin]
  rfl

-- C1 -------------------------------------------------------------

/-- C1, amended: on blocks with finite fields, aggregate returns
    kd = kills/deaths when the summed deaths are positive, and kd = 0
    otherwise — also when the summed kills are positive, because the
    internally computed +infinity sentinel is coerced to 0 by the
    Number.isFinite guard before being returned. -/
theorem aggregate_kd_amended (blocks : List Block) (hwf : blocks.all wfBlock = true) :
    (0 < sumD blocks →
      (aggregate blocks).kd = JsNum.fin (sumK blocks / sumD blocks)) ∧
    (sumD blocks ≤ 0 → (aggregate blocks).kd = JsNum.fin 0) := by
  have ht := aggregate_totals blocks hwf
  constructor
  · intro hD
    have hgt : (JsNum.fin (sumD blocks)).gt (JsNum.fin 0) = true := by
      rw [JsNum.gt_fin_zero]; exact decide_eq_true hD
    simp only [aggregate, ht, hgt, if_true]
    rw [JsNum.div_fin_of_ne _ _ (ne_of_gt hD)]
    simp [JsNum.isFinite]
  · intro hD
    have hgt : (JsNum.fin (sumD blocks)).gt (JsNum.fin 0) = false := by
      rw [JsNum.gt_fin_zero]; simpa using not_lt.mpr hD
    simp only [aggregate, ht, hgt, Bool.false_eq_true, if_false]
    by_cases hK : (JsNum.fin (sumK blocks)).gt (JsNum.fin 0) = true <;>
      simp [hK, JsNum.isFinite]

/-- C1 counterexample: a single block with deaths 0 and kills 5 aggregates to
    kd = 0, not to the +infinity sentinel the claim requires. -/
theorem aggregate_kd_counterexample :
    (aggregate [blkC1]).kd = JsNum.fin 0 ∧ (aggregate [blkC1]).kd ≠ JsNum.inf true := by
  have h : (aggregate [blkC1]).kd = JsNum.fin 0 := by
    norm_num [aggregate, aggStep, initTotals, blkC1, JsNum.add, JsNum.isFinite, JsNum.gt,
      JsNum.lt, JsNum.div, JsNum.mul]
  refine ⟨h, ?_⟩
  rw [h]
  exact fun hc => JsNum.noConfusion hc

/-- C1 witness: the amended theorem applied to the deaths-0/kills-5 block. -/
theorem aggregate_kd_amended_witness : (aggregate [blkC1]).kd = JsNum.fin 0 :=
  (aggregate_kd_amended [blkC1] (by decide)).2
    (by norm_num [sumD, blkC1, JsNum.toQ])

-- C7 -------------------------------------------------------------

/-- C7: on blocks with finite fields, the aggregated kills are the summed
    kills, and the aggregated headshot percentage is the kills-weighted
    average: the sum of headshotPct/100 × kills over the blocks, divided by
    the summed kills, times 100 — and 0 when the summed kills are 0. -/
theorem aggregate_hs_weighted (blocks : List Block) (hwf : blocks.all wfBlock = true) :
    (aggregate blocks).k = JsNum.fin (sumK blocks) ∧
    (0 < sumK blocks →
      (aggregate blocks).hs_pct = JsNum.fin (hsSum blocks / sumK blocks * 100)) ∧
    (sumK blocks = 0 → (aggregate blocks).hs_pct = JsNum.fin 0) := by
  have ht := aggregate_totals blocks hwf
  refine ⟨?_, ?_, ?_⟩
  · simp [aggregate, ht]
  · intro hK
    have hgt : (JsNum.fin (sumK blocks)).gt (JsNum.fin 0) = true := by
      rw [JsNum.gt_fin_zero]; exact decide_eq_true hK
    simp only [aggregate, ht, hgt, if_true]
    rw [JsNum.div_fin_of_ne _ _ (ne_of_gt hK), JsNum.mul_fin]
  · intro hK
    have hgt : (JsNum.fin (sumK blocks)).gt (JsNum.fin 0) = false := by
      rw [JsNum.gt_fin_zero]; simp [hK]
    simp [aggregate, ht, hgt]

/-- C7 witness: the spec example aggregates to kills 14 and
    headshotPct 300/7 ≈ 42.857. -/
theorem aggregate_hs_weighted_witness :
    (aggregate [blk7a, blk7b]).k = JsNum.fin 14 ∧
    (aggregate [blk7a, blk7b]).hs_pct = JsNum.fin (300 / 7) := by
  have h := aggregate_hs_weighted [blk7a, blk7b] (by decide)
  have hK : sumK [blk7a, blk7b] = 14 := by norm_num [sumK, blk7a, blk7b, JsNum.toQ]
  have hH : hsSum [blk7a, blk7b] = 6 := by norm_num [hsSum, blk7a, blk7b, JsNum.toQ]
  refine ⟨?_, ?_⟩
  · rw [h.1, hK]
  · rw [h.2.1 (by rw [hK]; norm_num), hK, hH]; norm_num

-- C10 ------------------------------------------------------------

/-- C10: aggregate is a total function, and on every input — including blocks
    with NaN or infinite fields — the returned wins, losses, k, d, kd and
    hs_pct are all finite: non-finite fields are skipped by the isFinite
    guards in the sums, and a non-finite kd ratio is coerced to 0. The days
    field is a list length, hence always a finite natural number. -/
theorem aggregate_never_throws (blocks : List Block) :
    (aggregate blocks).wins.isFinite = true ∧ (aggregate blocks).losses.isFinite = true ∧
    (aggregate blocks).k.isFinite = true ∧ (aggregate blocks).d.isFinite = true ∧
    (aggregate blocks).kd.isFinite = true ∧ (aggregate blocks).hs_pct.isFinite = true := by
  obtain ⟨hK, hD, hW, hL, hH⟩ := foldl_aggStep_finite blocks initTotals
    (by simp [initTotals, finTotals, JsNum.isFinite])
  simp only [aggregate]
  refine ⟨hW, hL, hK, hD, coerce_finite _, ?_⟩
  by_cases hgt : (blocks.foldl aggStep initTotals).totalK.gt (JsNum.fin 0) = true
  · simp only [hgt, if_true]
    exact hs_branch_finite _ _ hH hK hgt
  · simp only [Bool.not_eq_true] at hgt
    simp [hgt, JsNum.isFinite]

-- C2 -------------------------------------------------------------

/-- C2, amended: resolving a parseable label assumes the reference year, and
    one year is subtracted exactly when the reference month is January and the
    label month is December — so a December label seen in January yields the
    prior year, but a label of any other month (or a January label later in
    January) is kept in the reference year even when it falls more than 2 days
    after the reference date. -/
theorem toISOFromLabel_amended (label : String) (now : Date) (mon dayN : ℕ) (dt : Date)
    (hp : parseLabel label = some (mon, dayN)) (hr : toISOFromLabel label now = some dt) :
    dt.month = mon ∧ dt.day = dayN ∧
    dt.year = (if now.month = 1 ∧ mon = 12 then now.year - 1 else now.year) := by
  simp only [toISOFromLabel, hp, fromObjectValid] at hr
  by_cases hv : 1 ≤ mon ∧ mon ≤ 12 ∧ 1 ≤ dayN ∧ dayN ≤ daysInMonth now.year mon
  · rw [if_pos hv] at hr
    simp only [Option.some.injEq] at hr
    subst hr
    by_cases hdec : now.month = 1 ∧ mon = 12
    · rw [if_pos hdec]
      obtain ⟨h1, h12⟩ := hdec
      subst h12
      have h31 : daysInMonth (now.year - 1) 12 = 31 := by simp [daysInMonth]
      have hle : dayN ≤ 31 := by
        have h := hv.2.2.2
        simpa [daysInMonth] using h
      simp [minusYears1, h31, Nat.min_eq_left hle, h1]
    · rw [if_neg hdec, if_neg hdec]
      exact ⟨rfl, rfl, rfl⟩
  · rw [if_neg hv] at hr
    simp at hr

/-- C2 counterexample: with reference date 2025-01-01, the parseable label
    "Jan 10" resolves to 2025-01-10, which lies 9 days — more than the claimed
    2-day bound — in the future, and no year was subtracted. -/
theorem toISOFromLabel_counterexample :
    toISOFromLabel "Jan 10" ⟨2025, 1, 1⟩ = some ⟨2025, 1, 10⟩ ∧
    daysFromCivil ⟨2025, 1, 1⟩ + 2 < daysFromCivil ⟨2025, 1, 10⟩ := by decide

/-- C2 witness: the amended theorem on a December label seen in January:
    "Dec 25" with reference 2026-01-05 resolves to 2025-12-25, the prior year. -/
theorem toISOFromLabel_amended_witness :
    (⟨2025, 12, 25⟩ : Date).month = 12 ∧ (⟨2025, 12, 25⟩ : Date).day = 25 ∧
    (⟨2025, 12, 25⟩ : Date).year =
      (if (⟨2026, 1, 5⟩ : Date).month = 1 ∧ 12 = 12 then (⟨2026, 1, 5⟩ : Date).year - 1
       else (⟨2026, 1, 5⟩ : Date).year) :=
  toISOFromLabel_amended "Dec 25" ⟨2026, 1, 5⟩ 12 25 ⟨2025, 12, 25⟩ (by decide) (by decide)

-- C5 -------------------------------------------------------------

theorem eodFrac_nonneg : (0 : ℚ) ≤ eodFrac := by norm_num [eodFrac]

theorem eodFrac_lt_one : eodFrac < 1 := by norm_num [eodFrac]

theorem floor_eodFrac : ⌊eodFrac⌋ = 0 := by
  rw [Int.floor_eq_zero_iff]
  constructor <;> norm_num [eodFrac]

theorem startOfDay_int (d : ℤ) : startOfDay (d : ℚ) = (d : ℚ) := by
  simp [startOfDay, Int.floor_intCast]

theorem endOfDay_int (d : ℤ) : endOfDay (d : ℚ) = (d : ℚ) + eodFrac := by
  simp [endOfDay, Int.floor_intCast]

theorem le_add_eod_iff (s d : ℤ) : ((s : ℚ) ≤ (d : ℚ) + eodFrac) ↔ s ≤ d := by
  constructor
  · intro h
    by_contra hlt
    push_neg at hlt
    have hd : (d : ℚ) + 1 ≤ (s : ℚ) := by exact_mod_cast Int.add_one_le_iff.mpr hlt
    have := eodFrac_lt_one
    linarith
  · intro h
    have hq : (s : ℚ) ≤ (d : ℚ) := by exact_mod_cast h
    have := eodFrac_nonneg
    linarith

theorem add_eod_le_iff (d e : ℤ) : ((d : ℚ) + eodFrac ≤ (e : ℚ) + eodFrac) ↔ d ≤ e := by
  rw [add_le_add_iff_right]
  exact Int.cast_le

/-- Membership in filterBlocksByWindow, unfolded to the two comparisons. -/
theorem mem_filterBlocksByWindow (blocks : List Block) (b : Block) (start stop : ℚ) :
    b ∈ filterBlocksByWindow blocks start stop ↔
      b ∈ blocks ∧ ∃ dnum : ℤ, b.iso = some dnum ∧
        startOfDay start ≤ (dnum : ℚ) + eodFrac ∧ (dnum : ℚ) + eodFrac ≤ endOfDay stop := by
  unfold filterBlocksByWindow
  rw [List.mem_filter, List.mem_filter]
  cases hiso : b.iso with
  | none => simp [hiso]
  | some dnum => simp [hiso, endOfDay_int, and_assoc]

/-- Membership in a window running from an integral start day to the end of
    the day of the reference instant. -/
theorem mem_filterWindow_days (blocks : List Block) (b : Block) (s : ℤ) (now : ℚ) :
    b ∈ filterBlocksByWindow blocks ((s : ℤ) : ℚ) (endOfDay (⌊now⌋ : ℚ)) ↔
      b ∈ blocks ∧ ∃ dnum : ℤ, b.iso = some dnum ∧ s ≤ dnum ∧ dnum ≤ ⌊now⌋ := by
  rw [mem_filterBlocksByWindow]
  apply and_congr_right
  intro _
  apply exists_congr
  intro dnum
  apply and_congr_right
  intro _
  have h2 : endOfDay (endOfDay (⌊now⌋ : ℚ)) = (⌊now⌋ : ℚ) + eodFrac := by
    rw [endOfDay_int]
    unfold endOfDay
    rw [show ((⌊now⌋ : ℚ) + eodFrac) = (eodFrac + ((⌊now⌋ : ℤ) : ℚ)) by ring,
      Int.floor_add_int, floor_eodFrac]
    push_cast
    ring
  rw [startOfDay_int, h2]
  exact and_congr (le_add_eod_iff s dnum) (add_eod_le_iff dnum ⌊now⌋)

theorem filterBlocksByRange_week (blocks : List Block) (now : ℚ) :
    filterBlocksByRange blocks "week" now =
      filterBlocksByWindow blocks ((⌊now⌋ : ℚ) - 6) (endOfDay (⌊now⌋ : ℚ)) := by
  simp [filterBlocksByRange, startOfDay]

theorem filterBlocksByRange_month (blocks : List Block) (now : ℚ) :
    filterBlocksByRange blocks "month" now =
      filterBlocksByWindow blocks ((⌊now⌋ : ℚ) - 29) (endOfDay (⌊now⌋ : ℚ)) := by
  simp [filterBlocksByRange, startOfDay]

/-- C5: the rolling 7-day filter keeps exactly the blocks whose resolved day
    lies in the inclusive day span from today minus 6 through today, and the
    rolling 30-day filter those from today minus 29 through today; both
    boundary days are included, since the comparisons attach end-of-day
    instants to the block dates and window edges. -/
theorem filterBlocksByRange_rolling (blocks : List Block) (now : ℚ) (b : Block) :
    (b ∈ filterBlocksByRange blocks "week" now ↔
      b ∈ blocks ∧ ∃ dnum : ℤ, b.iso = some dnum ∧ ⌊now⌋ - 6 ≤ dnum ∧ dnum ≤ ⌊now⌋) ∧
    (b ∈ filterBlocksByRange blocks "month" now ↔
      b ∈ blocks ∧ ∃ dnum : ℤ, b.iso = some dnum ∧ ⌊now⌋ - 29 ≤ dnum ∧ dnum ≤ ⌊now⌋) := by
  constructor
  · rw [filterBlocksByRange_week,
      show ((⌊now⌋ : ℚ) - 6) = ((⌊now⌋ - 6 : ℤ) : ℚ) by push_cast; ring]
    exact mem_filterWindow_days blocks b (⌊now⌋ - 6) now
  · rw [filterBlocksByRange_month,
      show ((⌊now⌋ : ℚ) - 29) = ((⌊now⌋ - 29 : ℤ) : ℚ) by push_cast; ring]
    exact mem_filterWindow_days blocks b (⌊now⌋ - 29) now

-- C6 -------------------------------------------------------------

/-- C6: the previous-calendar-week canonical window starts on a Monday (day
    number s with ISO weekday 1), ends at the end of the Sunday six days
    later, the Monday of the current ISO week is exactly s + 7 (so the window
    is the Monday-through-Sunday span strictly preceding the current ISO
    week), and start is at most stop. -/
theorem getCanonicalWindow_week (now : ℚ) :
    ∃ s : ℤ, (getCanonicalWindow "week" now).start = (s : ℚ) ∧
      weekdayISO s = 1 ∧
      (getCanonicalWindow "week" now).stop = ((s + 6 : ℤ) : ℚ) + eodFrac ∧
      weekdayISO (s + 6) = 7 ∧
      mondayOf ⌊now⌋ = s + 7 ∧
      (getCanonicalWindow "week" now).start ≤ (getCanonicalWindow "week" now).stop := by
  have hgw : getCanonicalWindow "week" now = ⟨startOfWeek (now - 7), endOfWeek (now - 7)⟩ := by
    simp [getCanonicalWindow]
  have hfl : ⌊now - 7⌋ = ⌊now⌋ - 7 := by
    rw [show (7 : ℚ) = ((7 : ℤ) : ℚ) by norm_num, Int.floor_sub_int]
  refine ⟨⌊now⌋ - 7 - (weekdayISO (⌊now⌋ - 7) - 1), ?_, ?_, ?_, ?_, ?_, ?_⟩
  · rw [hgw]
    simp only [startOfWeek, hfl]
  · unfold weekdayISO
    omega
  · rw [hgw]
    simp only [endOfWeek, startOfWeek, hfl]
    push_cast
    ring
  · unfold weekdayISO
    omega
  · unfold mondayOf weekdayISO
    omega
  · rw [hgw]
    simp only [endOfWeek, startOfWeek, hfl]
    have := eodFrac_nonneg
    linarith

-- C3 -------------------------------------------------------------

theorem fetchTryCandidates_error (env : Env) (username : String) (urls : List String)
    (lastErr : Option String)
    (h : ∀ url ∈ urls, ∃ m, env url = FetchOutcome.navError m) :
    ∃ e, fetchTryCandidates env username urls lastErr = .error e := by
  induction urls generalizing lastErr with
  | nil => exact ⟨_, rfl⟩
  | cons url rest ih =>
    obtain ⟨m, hm⟩ := h url (List.mem_cons_self _ _)
    have hrest : ∀ u ∈ rest, ∃ m, env u = FetchOutcome.navError m :=
      fun u hu => h u (List.mem_cons_of_mem _ hu)
    simp only [fetchTryCandidates, fetchWithPlaywright, hm]
    exact ih (some m) hrest

/-- C3, amended: when every candidate URL fails navigation (the page load
    itself rejects), collecting the player's stats fails with an error.
    However, the code never classifies blocked statuses or unresolved
    challenges: a candidate that renders a blocked or challenge page is
    returned as content, so such a response can become a zeroed summary
    (see the counterexample); there is no FetchBlocked classification and no
    forced session refresh. -/
theorem collectForUser_all_navError (env : Env) (cfg : Config) (username range : String)
    (now : ℚ) (nowDate : Date)
    (h : ∀ url ∈ buildCandidates cfg username, ∃ m, env url = FetchOutcome.navError m) :
    ∃ e, collectForUser env cfg username range now nowDate = .error e := by
  obtain ⟨e, he⟩ := fetchTryCandidates_error env username (buildCandidates cfg username) none h
  refine ⟨e, ?_⟩
  simp only [collectForUser, scrapeDailyBlocks, fetchProfileHtml, he]

/-- C3 counterexample: every candidate serves an unresolved bot-challenge page
    (the marker never clears: the wait loop runs its full 10 attempts), yet
    collectForUser succeeds with a zeroed summary for the first candidate URL
    instead of failing with a FetchBlocked error. -/
theorem collectForUser_blocked_counterexample :
    collectForUser envBlocked ⟨"auto", "pc"⟩ "player" "day" 20000 ⟨2024, 10, 1⟩ =
      .ok ⟨"player", "https://tracker.gg/r6siege/profile/ubi/player/matches", zeroAgg, 0⟩ ∧
    cfAttempts (fun _ => challengeDoc) = 10 := by
  constructor
  · rfl
  · decide

/-- C3 witness: with every URL failing navigation, collecting errors out. -/
theorem collectForUser_all_navError_witness :
    ∃ e, collectForUser envDown ⟨"auto", "pc"⟩ "player" "day" 20000 ⟨2024, 10, 1⟩ = .error e :=
  collectForUser_all_navError envDown ⟨"auto", "pc"⟩ "player" "day" 20000 ⟨2024, 10, 1⟩
    (fun _ _ => ⟨"net error", rfl⟩)

-- C4 -------------------------------------------------------------

/-- C4: collectForGuild returns one entry per registered player, in order, and
    the i-th entry is determined by the i-th player's own collection outcome
    alone: an error entry naming that player when collectForUser fails for
    them, and that player's success record otherwise. A failure for one player
    therefore never aborts the batch, and every other player's summary is
    still returned in the same list. -/
theorem collectForGuild_partial (env : Env) (cfg : Config) (players : List String)
    (range : String) (now : ℚ) (nowDate : Date) :
    (collectForGuild env cfg players range now nowDate).length = players.length ∧
    ∀ i : ℕ, (collectForGuild env cfg players range now nowDate)[i]? =
      (players[i]?).map (fun u =>
        match collectForUser env cfg u range now nowDate with
        | .ok r => GEntry.ok r
        | .error e => GEntry.err u e) := by
  induction players with
  | nil =>
    refine ⟨rfl, ?_⟩
    intro i
    cases i <;> rfl
  | cons u rest ih =>
    refine ⟨?_, ?_⟩
    · simp only [collectForGuild, List.length_cons]
      rw [ih.1]
    · intro i
      cases i with
      | zero => simp [collectForGuild]
      | succ n => simpa [collectForGuild] using ih.2 n

-- C8 -------------------------------------------------------------

theorem mem_orderedInsertJS {α : Type} (r : α → α → Bool) (a x : α) (l : List α) :
    x ∈ orderedInsertJS r a l ↔ x = a ∨ x ∈ l := by
  induction l with
  | nil => simp [orderedInsertJS]
  | cons b t ih =>
    simp only [orderedInsertJS]
    split
    · simp [List.mem_cons]
    · simp only [List.mem_cons, ih]
      tauto

theorem length_orderedInsertJS {α : Type} (r : α → α → Bool) (a : α) (l : List α) :
    (orderedInsertJS r a l).length = l.length + 1 := by
  induction l with
  | nil => rfl
  | cons b t ih =>
    simp only [orderedInsertJS]
    split
    · rfl
    · simp only [List.length_cons, ih]

theorem length_insertionSortJS {α : Type} (r : α → α → Bool) (l : List α) :
    (insertionSortJS r l).length = l.length := by
  induction l with
  | nil => rfl
  | cons a t ih => simp [insertionSortJS, length_orderedInsertJS, ih]

theorem mem_insertionSortJS {α : Type} (r : α → α → Bool) (l : List α) (x : α) :
    x ∈ insertionSortJS r l ↔ x ∈ l := by
  induction l with
  | nil => simp [insertionSortJS]
  | cons a t ih => simp [insertionSortJS, mem_orderedInsertJS, ih]

theorem chain'_orderedInsertJS {α : Type} (r : α → α → Bool) (a : α) (l : List α)
    (htot : ∀ x ∈ l, r a x = true ∨ r x a = true)
    (hc : List.Chain' (fun x y => r x y = true) l) :
    List.Chain' (fun x y => r x y = true) (orderedInsertJS r a l) := by
  induction l with
  | nil => simp [orderedInsertJS]
  | cons b t ih =>
    simp only [orderedInsertJS]
    split
    · next hr => exact List.chain'_cons.mpr ⟨hr, hc⟩
    · next hr =>
      have hba : r b a = true := by
        rcases htot b (List.mem_cons_self _ _) with h | h
        · exact absurd h hr
        · exact h
      have hins := ih (fun x hx => htot x (List.mem_cons_of_mem _ hx)) hc.tail
      refine List.chain'_cons'.mpr ⟨?_, hins⟩
      intro y hy
      cases t with
      | nil =>
        simp only [orderedInsertJS, List.head?_cons, Option.mem_def, Option.some.injEq] at hy
        subst hy
        exact hba
      | cons c t2 =>
        simp only [orderedInsertJS] at hy
        by_cases hac : r a c = true
        · rw [if_pos hac] at hy
          simp only [List.head?_cons, Option.mem_def, Option.some.injEq] at hy
          subst hy
          exact hba
        · rw [if_neg hac] at hy
          simp only [List.head?_cons, Option.mem_def, Option.some.injEq] at hy
          subst hy
          exact (List.chain'_cons.mp hc).1

theorem chain'_insertionSortJS {α : Type} (r : α → α → Bool) (l : List α)
    (htot : ∀ x ∈ l, ∀ y ∈ l, r x y = true ∨ r y x = true) :
    List.Chain' (fun x y => r x y = true) (insertionSortJS r l) := by
  induction l with
  | nil => simp [insertionSortJS]
  | cons a t ih =>
    simp only [insertionSortJS]
    refine chain'_orderedInsertJS r a _ ?_ ?_
    · intro x hx
      have hx' : x ∈ t := (mem_insertionSortJS r t x).mp hx
      exact htot a (List.mem_cons_self _ _) x (List.mem_cons_of_mem _ hx')
    · exact ih (fun x hx y hy => htot x (List.mem_cons_of_mem _ hx) y (List.mem_cons_of_mem _ hy))

theorem sortKeep_finite_le (v : FlatEntry → JsNum) (x y : FlatEntry)
    (hx : (v x).isFinite = true) (hy : (v y).isFinite = true)
    (h : sortKeep v x y = true) : (v y).toQ ≤ (v x).toQ := by
  rw [sortKeep, JsNum.isFinite_eq_fin hx, JsNum.isFinite_eq_fin hy] at h
  simp only [JsNum.sub, JsNum.neg, JsNum.add, JsNum.lt, Bool.not_eq_true',
    decide_eq_false_iff_not, not_lt] at h
  linarith

theorem sortKeep_total (v : FlatEntry → JsNum) (x y : FlatEntry)
    (hx : (v x).isFinite = true) (hy : (v y).isFinite = true) :
    sortKeep v x y = true ∨ sortKeep v y x = true := by
  rw [sortKeep, sortKeep, JsNum.isFinite_eq_fin hx, JsNum.isFinite_eq_fin hy]
  simp only [JsNum.sub, JsNum.neg, JsNum.add, JsNum.lt, Bool.not_eq_true',
    decide_eq_false_iff_not, not_lt]
  rcases le_total ((v x).toQ) ((v y).toQ) with h | h
  · right
    linarith
  · left
    linarith

theorem rankBy_props (v : FlatEntry → JsNum) (flat : List FlatEntry) :
    (rankBy v flat).length ≤ 5 ∧
    (∀ e ∈ rankBy v flat, e ∈ flat) ∧
    ((∀ e ∈ flat, (v e).isFinite = true) →
      List.Chain' (fun x y => (v y).toQ ≤ (v x).toQ) (rankBy v flat)) := by
  refine ⟨List.length_take_le 5 _, ?_, ?_⟩
  · intro e he
    have h1 : e ∈ insertionSortJS (sortKeep v) flat := List.mem_of_mem_take he
    exact (mem_insertionSortJS _ _ _).mp h1
  · intro hfin
    have htot : ∀ x ∈ flat, ∀ y ∈ flat, sortKeep v x y = true ∨ sortKeep v y x = true :=
      fun x hx y hy => sortKeep_total v x y (hfin x hx) (hfin y hy)
    have hc : List.Chain' (fun x y => sortKeep v x y = true) (rankBy v flat) :=
      (chain'_insertionSortJS (sortKeep v) flat htot).take 5
    rw [List.chain'_iff_get] at hc ⊢
    intro i hi
    have h1 := hc i hi
    have hm1 : (rankBy v flat).get ⟨i, by omega⟩ ∈ rankBy v flat :=
      List.get_mem _ _ _
    have hm2 : (rankBy v flat).get ⟨i + 1, by omega⟩ ∈ rankBy v flat :=
      List.get_mem _ _ _
    have hf1 : ∀ e ∈ rankBy v flat, (v e).isFinite = true := by
      intro e he
      have h2 : e ∈ insertionSortJS (sortKeep v) flat := List.mem_of_mem_take he
      exact hfin e ((mem_insertionSortJS _ _ _).mp h2)
    exact sortKeep_finite_le v _ _ (hf1 _ hm1) (hf1 _ hm2) h1

/-- C8, amended: for every collected list and each of the five metrics,
    buildRankings excludes entries that errored during acquisition (they never
    appear, in particular never as silent zeros), sorts the remaining entries
    in descending metric order (stated for finite metric values), and
    truncates to at most 5 entries; being a pure function it is
    deterministic. However, no finiteness filter is applied: an entry whose
    kd is the +infinity sentinel participates in the kd ranking — see the
    counterexample. -/
theorem buildRankings_amended (collected : List GEntry) :
    rankingOK (fun e => e.k) collected (buildRankings collected).mostKills ∧
    rankingOK (fun e => e.d) collected (buildRankings collected).mostDeaths ∧
    rankingOK (fun e => e.kd) collected (buildRankings collected).bestKD ∧
    rankingOK (fun e => e.hs_pct) collected (buildRankings collected).bestHS ∧
    rankingOK (fun e => e.wins) collected (buildRankings collected).mostWins := by
  have hmem : ∀ e ∈ collected.filterMap flatten, ∃ g ∈ collected, flatten g = some e := by
    intro e he
    exact List.mem_filterMap.mp he
  refine ⟨?_, ?_, ?_, ?_, ?_⟩ <;>
  · obtain ⟨h1, h2, h3⟩ := rankBy_props _ (collected.filterMap flatten)
    exact ⟨h1, fun e he => hmem e (h2 e he), h3⟩

/-- C8 counterexample: an entry whose kd is the +infinity sentinel is not
    excluded from the kd ranking: buildRankings keeps it, sorted first. -/
theorem buildRankings_counterexample :
    (buildRankings [GEntry.ok ⟨"A", "u", aggInf, 0⟩, GEntry.ok ⟨"B", "u", aggOne, 0⟩]).bestKD =
      [⟨"A", .fin 0, .fin 0, .fin 0, .fin 0, .inf true, .fin 0, 1⟩,
       ⟨"B", .fin 0, .fin 0, .fin 0, .fin 0, .fin 1, .fin 0, 1⟩] ∧
    (JsNum.inf true).isFinite = false := by
  exact ⟨rfl, rfl⟩

/-- C8 witness: the amended theorem applied to the two-entry list with the
    infinite-kd entry. -/
theorem buildRankings_amended_witness :
    rankingOK (fun e => e.k)
      [GEntry.ok ⟨"A", "u", aggInf, 0⟩, GEntry.ok ⟨"B", "u", aggOne, 0⟩]
      (buildRankings [GEntry.ok ⟨"A", "u", aggInf, 0⟩, GEntry.ok ⟨"B", "u", aggOne, 0⟩]).mostKills ∧
    rankingOK (fun e => e.d)
      [GEntry.ok ⟨"A", "u", aggInf, 0⟩, GEntry.ok ⟨"B", "u", aggOne, 0⟩]
      (buildRankings [GEntry.ok ⟨"A", "u", aggInf, 0⟩, GEntry.ok ⟨"B", "u", aggOne, 0⟩]).mostDeaths ∧
    rankingOK (fun e => e.kd)
      [GEntry.ok ⟨"A", "u", aggInf, 0⟩, GEntry.ok ⟨"B", "u", aggOne, 0⟩]
      (buildRankings [GEntry.ok ⟨"A", "u", aggInf, 0⟩, GEntry.ok ⟨"B", "u", aggOne, 0⟩]).bestKD ∧
    rankingOK (fun e => e.hs_pct)
      [GEntry.ok ⟨"A", "u", aggInf, 0⟩, GEntry.ok ⟨"B", "u", aggOne, 0⟩]
      (buildRankings [GEntry.ok ⟨"A", "u", aggInf, 0⟩, GEntry.ok ⟨"B", "u", aggOne, 0⟩]).bestHS ∧
    rankingOK (fun e => e.wins)
      [GEntry.ok ⟨"A", "u", aggInf, 0⟩, GEntry.ok ⟨"B", "u", aggOne, 0⟩]
      (buildRankings [GEntry.ok ⟨"A", "u", aggInf, 0⟩, GEntry.ok ⟨"B", "u", aggOne, 0⟩]).mostWins :=
  buildRankings_amended [GEntry.ok ⟨"A", "u", aggInf, 0⟩, GEntry.ok ⟨"B", "u", aggOne, 0⟩]

-- C9 -------------------------------------------------------------

theorem deact_deact (o : Option CronJob) :
    (o.map (fun j => { j with active := false })).map (fun j => { j with active := false }) =
      o.map (fun j => { j with active := false }) := by
  cases o <;> rfl

theorem deact_comp :
    ((fun j : CronJob => { j with active := false }) ∘ fun j : CronJob =>
      { j with active := false }) = fun j : CronJob => { j with active := false } := by
  funext j
  rfl

theorem stopJob_getElem (n : ℕ) (l : List CronJob) (i : ℕ) :
    (stopJob n l)[i]? =
      if i = n then (l[i]?).map (fun j => { j with active := false }) else l[i]? := by
  induction l generalizing n i with
  | nil =>
    simp only [stopJob, List.getElem?_nil, Option.map_none']
    split <;> rfl
  | cons j rest ih =>
    cases n with
    | zero =>
      cases i with
      | zero => simp [stopJob]
      | succ i2 => simp [stopJob]
    | succ n2 =>
      cases i with
      | zero => simp [stopJob]
      | succ i2 => simpa [stopJob] using ih n2 i2

theorem stopJob3_getElem (d w m : ℕ) (l : List CronJob) (i : ℕ) :
    (stopJob m (stopJob w (stopJob d l)))[i]? =
      if i = d ∨ i = w ∨ i = m then (l[i]?).map (fun j => { j with active := false })
      else l[i]? := by
  rw [stopJob_getElem, stopJob_getElem, stopJob_getElem]
  split_ifs <;> simp_all [deact_deact, deact_comp]

/-- After stopCronsForGuild, a guild satisfying the bookkeeping invariant has
    no active job left. -/
theorem stopCrons_noActive (g : String) (st : CronState) (hwf : WfGuild st g) :
    ∀ j ∈ (stopCronsForGuild g st).jobs, ¬(j.guild = g ∧ j.active = true) := by
  intro j hj hcontra
  unfold stopCronsForGuild at hj
  cases hlc : lookupCron st.cronMap g with
  | none =>
    rw [hlc] at hj
    obtain ⟨i, hi⟩ := (List.mem_iff_getElem?).mp hj
    have hilt : i < st.jobs.length := (List.getElem?_eq_some.mp hi).1
    have hji : st.jobs[i] = j := by
      have := List.getElem?_eq_getElem hilt
      rw [this] at hi
      exact Option.some.inj hi
    have hw := hwf i hilt (by rw [hji]; exact hcontra)
    rw [hlc] at hw
    simp [inTripleB] at hw
  | some triple =>
    obtain ⟨d, w, m⟩ := triple
    rw [hlc] at hj
    simp only at hj
    obtain ⟨i, hi⟩ := (List.mem_iff_getElem?).mp hj
    rw [stopJob3_getElem] at hi
    by_cases hin : i = d ∨ i = w ∨ i = m
    · rw [if_pos hin] at hi
      cases ho : st.jobs[i]? with
      | none => rw [ho] at hi; simp at hi
      | some j0 =>
        rw [ho] at hi
        simp only [Option.map_some', Option.some.injEq] at hi
        have hjact : j.active = false := by rw [← hi]
        rw [hcontra.2] at hjact
        simp at hjact
    · rw [if_neg hin] at hi
      have hilt : i < st.jobs.length := (List.getElem?_eq_some.mp hi).1
      have hji : st.jobs[i] = j := by
        have := List.getElem?_eq_getElem hilt
        rw [this] at hi
        exact Option.some.inj hi
      have hw := hwf i hilt (by rw [hji]; exact hcontra)
      rw [hlc] at hw
      simp only [inTripleB, Bool.or_eq_true, beq_iff_eq] at hw
      exact hin (by tauto)

theorem filter_stop_nil (g : String) (st : CronState) (hwf : WfGuild st g) :
    (stopCronsForGuild g st).jobs.filter (fun j => j.guild == g && j.active) = [] := by
  rw [List.filter_eq_nil_iff]
  intro j hj
  have hna := stopCrons_noActive g st hwf j hj
  simp only [Bool.and_eq_true, beq_iff_eq]
  tauto

theorem lookup_setCron (l : List (String × ℕ × ℕ × ℕ)) (g : String) (ids : ℕ × ℕ × ℕ) :
    lookupCron (setCron l g ids) g = some ids := by
  unfold lookupCron setCron
  rw [List.find?_cons_of_pos _ (by simp)]
  rfl

theorem lookupSched_upsert (l : List (String × String × String)) (g ch t : String) :
    lookupSched (upsertSched l g ch t) g = some (ch, t) := by
  unfold upsertSched lookupSched
  by_cases hany : l.any (fun e => e.1 == g) = true
  · rw [if_pos hany]
    induction l with
    | nil => simp at hany
    | cons e rest ih =>
      simp only [List.map_cons]
      by_cases he : e.1 == g
      · rw [if_pos he, List.find?_cons_of_pos _ (by simp)]
        rfl
      · rw [if_neg he, List.find?_cons_of_neg _ (by simpa using he)]
        apply ih
        simp only [List.any_cons, Bool.or_eq_true] at hany
        rcases hany with h | h
        · exact absurd h he
        · exact h
  · rw [if_neg hany]
    induction l with
    | nil =>
      rw [List.nil_append, List.find?_cons_of_pos _ (by simp)]
      rfl
    | cons e rest ih =>
      simp only [List.any_cons, Bool.or_eq_true, not_or] at hany
      rw [List.cons_append, List.find?_cons_of_neg _ (by simpa using hany.1)]
      exact ih hany.2

/-- The heart of C9: installing for a guild with a persisted, parseable time
    leaves exactly the three fresh triggers active for it, and re-establishes
    the bookkeeping invariant. -/
theorem install_spec (g : String) (st : CronState) (ch t : String) (hh mm : ℕ)
    (hsched : lookupSched st.schedules g = some (ch, t))
    (hparse : parseHHmm t = some (hh, mm))
    (hwf : WfGuild st g) :
    activeExprsFor (installCronsForGuild g st) g =
      [dailyExpr hh mm, weeklyExpr hh mm, monthlyExpr hh mm] ∧
    WfGuild (installCronsForGuild g st) g := by
  unfold installCronsForGuild
  rw [hsched]
  simp only [hparse]
  constructor
  · simp only [activeExprsFor]
    rw [List.filter_append, filter_stop_nil g st hwf, List.nil_append]
    simp
  · intro i hlen hact
    simp only [List.length_append, List.length_cons, List.length_nil] at hlen
    rw [lookup_setCron]
    simp only [inTripleB, Bool.or_eq_true, beq_iff_eq]
    by_cases hi : i < (stopCronsForGuild g st).jobs.length
    · exfalso
      rw [List.getElem_append_left hi] at hact
      exact stopCrons_noActive g st hwf _ (List.getElem_mem hi) hact
    · omega

/-- C9: programming a group twice with two valid HH:mm times leaves exactly
    one active daily/weekly/monthly trigger set for it — the three trigger
    expressions derived from the latest time — because installation always
    stops the previously installed triggers first. The WfGuild hypothesis is
    the bookkeeping invariant (every active trigger of the group is recorded
    in the guildCrons map), which install_spec shows is maintained. -/
theorem program_twice (st : CronState) (g ch1 t1 ch2 t2 : String) (hh1 mm1 hh2 mm2 : ℕ)
    (hp1 : parseHHmm t1 = some (hh1, mm1)) (hp2 : parseHHmm t2 = some (hh2, mm2))
    (hwf : WfGuild st g) :
    activeExprsFor (program g ch2 t2 (program g ch1 t1 st)) g =
      [dailyExpr hh2 mm2, weeklyExpr hh2 mm2, monthlyExpr hh2 mm2] := by
  unfold program
  obtain ⟨hact1, hwf1⟩ := install_spec g { st with schedules := upsertSched st.schedules g ch1 t1 }
    ch1 t1 hh1 mm1 (lookupSched_upsert st.schedules g ch1 t1) hp1 hwf
  obtain ⟨hact2, _⟩ := install_spec g
    { installCronsForGuild g { st with schedules := upsertSched st.schedules g ch1 t1 } with
      schedules := upsertSched (installCronsForGuild g
        { st with schedules := upsertSched st.schedules g ch1 t1 }).schedules g ch2 t2 }
    ch2 t2 hh2 mm2 (lookupSched_upsert _ g ch2 t2) hp2 hwf1
  exact hact2

/-- C9 witness: from the empty state, programming guild g1 at 21:00 and then
    at 22:30 leaves exactly the three triggers of 22:30 active. -/
theorem program_twice_witness :
    activeExprsFor (program "g1" "ch2" "22:30" (program "g1" "ch1" "21:00" ⟨[], [], []⟩)) "g1" =
      [dailyExpr 22 30, weeklyExpr 22 30, monthlyExpr 22 30] :=
  program_twice ⟨[], [], []⟩ "g1" "ch1" "21:00" "ch2" "22:30" 21 0 22 30
    (by decide) (by decide) (by decide)

end R6Bot
